import Mathlib

/-!
Verification development for the deno-pond storage/retrieval engine.

This file gives a shallow embedding, in Lean 4, of the core components of
the deno-pond repository:

* the `Embedding` domain entity and its vector validation
  (`src/domain/entities/embedding.ts`),
* the `Memory` aggregate and its child value objects
  (`src/domain/entities/memory.ts`, `source.ts`, `entity.ts`, and the
  `Tag`/`Action` classes),
* the transaction wrapper `DatabaseConnection.withTransaction`
  (`src/infrastructure/database/database-connection.ts`),
* the schema migration engine: `runMigrations`, `rollback` and
  `discoverMigrations` (`src/infrastructure/migrations/migration-runner.ts`),
* the PostgreSQL session-variable semantics backing tenant isolation
  (`src/infrastructure/database/tenant-context.ts` and
  `src/infrastructure/migrations/004_enable_rls_enforcement.sql`), and
* the repository operations of `PostgresMemoryRepository`
  (`src/infrastructure/repositories/postgres-memory-repository.ts`),
  with row-level-security (RLS) filtering embedded as the visible-row
  computation performed by the database.

JavaScript numbers appearing in embedding vectors are modelled by `JSNum`
(NaN, the two infinities, or a finite rational); machine-integer hashing is
modelled with explicit wrap-around at 2^32.  Database tables are lists of
row records, and effectful repository code is state-passing; fallible code
returns `Except`.
-/

namespace DenoPond

/-! ## JavaScript numbers (for embedding vectors) -/

/-- A JavaScript number as observable by the embedding validation code:
`NaN`, `Infinity`, `-Infinity`, or a finite value (modelled as a rational). -/
inductive JSNum where
  | nan : JSNum
  | posInf : JSNum
  | negInf : JSNum
  | fin (q : ℚ) : JSNum
deriving DecidableEq, Repr

/-- `isNaN(x)` in JavaScript. -/
def JSNum.isNaNb : JSNum → Bool
  | .nan => true
  | _ => false

/-- `isFinite(x)` in JavaScript (false on NaN and both infinities). -/
def JSNum.isFiniteb : JSNum → Bool
  | .fin _ => true
  | _ => false

/-- `x === 0` in JavaScript (`NaN === 0` is false; `-0 === 0` is true). -/
def JSNum.isZerob : JSNum → Bool
  | .fin q => q == 0
  | _ => false

/-! ## Embedding entity (`src/domain/entities/embedding.ts`) -/

/-- The `validDimensions` list from `Embedding.validateVector`. -/
def validDimensions : List Nat := [128, 256, 384, 512, 768, 1024, 1536, 2048, 4096]

/-- The per-component loop of `Embedding.validateVector`: for each index in
order, the NaN check is performed before the finiteness check. Returns the
first error raised, if any. -/
def firstBadComponent : List JSNum → Option String
  | [] => none
  | x :: xs =>
    if x.isNaNb then some "Vector cannot contain NaN values"
    else if !x.isFiniteb then some "Vector cannot contain infinite values"
    else firstBadComponent xs

/-- `Embedding.validateVector` from `embedding.ts`: empty check, then valid
dimension check, then all-zero check, then the per-component NaN/infinite
loop.  Returns the validation error message raised, or `none` when the
vector passes. -/
def validateVector (vector : List JSNum) : Option String :=
  if vector.length = 0 then some "Vector cannot be empty"
  else if ¬ (vector.length ∈ validDimensions) then
    some "Vector must have valid dimensions"
  else if vector.all (fun v => v.isZerob) then some "Vector cannot be zero vector"
  else firstBadComponent vector

/-- The `Embedding` entity: an immutable vector, its dimensionality and the
generating model name. -/
structure Embedding where
  vector : List JSNum
  dimensions : Nat
  model : String
deriving DecidableEq, Repr

/-- The `Embedding` constructor: validates the vector, then stores a copy of
it, sets `dimensions` to the vector's length and records the model name
(default `"unknown"`).  A validation failure is a thrown `ValidationError`,
modelled as `Except.error`. -/
def Embedding.make (vector : List JSNum) (model : String := "unknown") :
    Except String Embedding :=
  match validateVector vector with
  | some e => .error e
  | none => .ok { vector := vector, dimensions := vector.length, model := model }

/-- The conditions `Embedding.validateVector` is meant to enforce, as a
single proposition about the input vector. -/
def goodVector (v : List JSNum) : Prop :=
  v ≠ [] ∧ v.length ∈ validDimensions ∧
  ¬(∀ x ∈ v, x.isZerob = true) ∧
  (∀ x ∈ v, x.isNaNb = false ∧ x.isFiniteb = true)

instance (v : List JSNum) : Decidable (goodVector v) := by
  unfold goodVector; infer_instance

theorem firstBadComponent_eq_none_iff (v : List JSNum) :
    firstBadComponent v = none ↔ ∀ x ∈ v, x.isNaNb = false ∧ x.isFiniteb = true := by
  induction v with
  | nil => simp [firstBadComponent]
  | cons x xs ih =>
    cases hn : x.isNaNb with
    | true => simp [firstBadComponent, hn]
    | false =>
      cases hf : x.isFiniteb with
      | false => simp [firstBadComponent, hn, hf]
      | true => simp [firstBadComponent, hn, hf, ih]

theorem validateVector_eq_none_iff (v : List JSNum) :
    validateVector v = none ↔ goodVector v := by
  unfold validateVector goodVector
  by_cases h0 : v.length = 0
  · rcases List.length_eq_zero.mp h0 with rfl
    simp
  · have hne : v ≠ [] := fun h => h0 (by simp [h])
    by_cases hd : v.length ∈ validDimensions
    · by_cases hz : v.all (fun x => x.isZerob) = true
      · have hall : ∀ x ∈ v, x.isZerob = true := List.all_eq_true.mp hz
        rw [if_neg h0, if_neg (not_not_intro hd), if_pos hz]
        constructor
        · intro h; cases h
        · rintro ⟨-, -, hnz, -⟩
          exact absurd hall hnz
      · have hnz : ¬ ∀ x ∈ v, x.isZerob = true :=
          fun hall => hz (List.all_eq_true.mpr hall)
        simp [h0, hd, hz, hne, hnz, firstBadComponent_eq_none_iff]
    · simp [h0, hd]

/-- C10: every successfully constructed `Embedding` has `dimensions` equal to
its vector's length, stores exactly the input vector, and that vector is
non-empty, free of NaN and infinite components, not all-zero, and of a length
drawn from the fixed list of valid dimensionalities; construction succeeds
precisely on vectors satisfying these conditions, and any violating input is
rejected with a validation error. -/
theorem embedding_construction_invariants (v : List JSNum) (m : String) :
    (∀ e, Embedding.make v m = .ok e →
      e.dimensions = e.vector.length ∧
      e.vector = v ∧
      e.model = m ∧
      e.vector ≠ [] ∧
      e.vector.length ∈ validDimensions ∧
      ¬(∀ x ∈ e.vector, x.isZerob = true) ∧
      (∀ x ∈ e.vector, x.isNaNb = false ∧ x.isFiniteb = true)) ∧
    ((∃ e, Embedding.make v m = .ok e) ↔ goodVector v) ∧
    (¬ goodVector v → ∃ msg, Embedding.make v m = .error msg) := by
  refine ⟨?_, ?_, ?_⟩
  · intro e he
    unfold Embedding.make at he
    rcases hv : validateVector v with _ | msg
    · have hg := (validateVector_eq_none_iff v).mp hv
      rw [hv] at he
      cases he
      obtain ⟨hne, hmem, hnz, hcomp⟩ := hg
      exact ⟨rfl, rfl, rfl, hne, hmem, hnz, hcomp⟩
    · rw [hv] at he; cases he
  · constructor
    · intro ⟨e, he⟩
      unfold Embedding.make at he
      rcases hv : validateVector v with _ | msg
      · exact (validateVector_eq_none_iff v).mp hv
      · rw [hv] at he; cases he
    · intro hg
      have hv : validateVector v = none := (validateVector_eq_none_iff v).mpr hg
      exact ⟨_, by unfold Embedding.make; rw [hv]⟩
  · intro hg
    rcases hv : validateVector v with _ | msg
    · exact absurd ((validateVector_eq_none_iff v).mp hv) hg
    · exact ⟨msg, by unfold Embedding.make; rw [hv]⟩

set_option maxRecDepth 8192 in
/-- Witness for C10 at a concrete input: a 128-component vector of ones is
accepted, and the constructed embedding satisfies the stated invariants. -/
theorem embedding_construction_invariants_witness :
    Embedding.make (List.replicate 128 (JSNum.fin 1)) "m" =
      .ok { vector := List.replicate 128 (JSNum.fin 1), dimensions := 128, model := "m" } ∧
    (128 : Nat) = (List.replicate 128 (JSNum.fin 1)).length ∧
    (List.replicate 128 (JSNum.fin 1) : List JSNum) ≠ [] := by
  have h := (embedding_construction_invariants (List.replicate 128 (JSNum.fin 1)) "m").1
    { vector := List.replicate 128 (JSNum.fin 1), dimensions := 128, model := "m" }
    rfl
  exact ⟨rfl, by simp, h.2.2.2.1⟩

/-! ## `DatabaseConnection.withTransaction`
(`src/infrastructure/database/database-connection.ts`)

The callback, the `BEGIN` and the `COMMIT` are each modelled as an
`Except`-valued outcome supplied by the environment; `rollbackFails` says
whether the `ROLLBACK` issued in the catch block would itself throw (that
error is caught and only logged by the source). -/

/-- The outcomes of the I/O steps `withTransaction` performs. -/
structure TxBehavior (E A : Type) where
  beginR : Except E Unit
  body : Except E A
  commitR : Except E Unit
  rollbackFails : Bool

/-- What a run of `withTransaction` did: its returned-or-thrown result,
whether the transaction was committed, and whether a rollback was
attempted. -/
structure TxResult (E A : Type) where
  result : Except E A
  committed : Bool
  rolledBack : Bool

/-- `DatabaseConnection.withTransaction` from `database-connection.ts`:
`begin`, run the callback, `commit`; on any error thrown after a successful
`begin` and before a successful `commit`, attempt a rollback (swallowing a
rollback failure) and re-throw the original error. -/
def withTransaction {E A : Type} (b : TxBehavior E A) : TxResult E A :=
  match b.beginR with
  | .error e => { result := .error e, committed := false, rolledBack := false }
  | .ok _ =>
    match b.body with
    | .error e => { result := .error e, committed := false, rolledBack := true }
    | .ok a =>
      match b.commitR with
      | .ok _ => { result := .ok a, committed := true, rolledBack := false }
      | .error e => { result := .error e, committed := false, rolledBack := true }

/-- C7: `withTransaction` commits exactly when the callback returns normally
and the commit succeeds (in which case the callback's value is returned); on
an error thrown by the callback, or by the commit itself, it rolls back and
re-raises that original error unchanged; and the outcome is independent of
whether the rollback attempt itself fails. -/
theorem withTransaction_semantics {E A : Type} (b : TxBehavior E A) :
    ((withTransaction b).committed = true ↔
      (∃ a, b.beginR = .ok () ∧ b.body = .ok a ∧ b.commitR = .ok () ∧
        (withTransaction b).result = .ok a)) ∧
    (∀ e, b.beginR = .ok () → b.body = .error e →
      (withTransaction b).result = .error e ∧ (withTransaction b).rolledBack = true) ∧
    (∀ a e, b.beginR = .ok () → b.body = .ok a → b.commitR = .error e →
      (withTransaction b).result = .error e ∧ (withTransaction b).rolledBack = true) ∧
    (∀ r : Bool, withTransaction { b with rollbackFails := r } = withTransaction b) := by
  obtain ⟨bg, bd, cm, rb⟩ := b
  refine ⟨?_, ?_, ?_, ?_⟩
  · cases bg with
    | error e => simp [withTransaction]
    | ok u =>
      cases u
      cases bd with
      | error e => simp [withTransaction]
      | ok a =>
        cases cm with
        | error e => simp [withTransaction]
        | ok u => cases u; simp [withTransaction]
  · intro e hbg hbd
    cases hbg; cases hbd
    simp [withTransaction]
  · intro a e hbg hbd hcm
    cases hbg; cases hbd; cases hcm
    simp [withTransaction]
  · intro r
    rfl

/-- A concrete transaction behavior: the callback succeeds, the commit
fails, and the rollback attempt itself fails. -/
def txCommitFailureSample : TxBehavior String Nat :=
  { beginR := .ok (), body := .ok 5,
    commitR := .error "commit failed", rollbackFails := true }

/-- Witness for C7 at a concrete input: a callback that succeeds followed by
a failing commit, with a failing rollback, yields the commit's original
error, a rollback attempt, and no commit. -/
theorem withTransaction_semantics_witness :
    (withTransaction txCommitFailureSample).result = .error "commit failed" ∧
    (withTransaction txCommitFailureSample).rolledBack = true := by
  exact (withTransaction_semantics txCommitFailureSample).2.2.1 5 "commit failed"
    rfl rfl rfl

/-! ## Schema migration engine
(`src/infrastructure/migrations/migration-runner.ts`)

The database state visible to the runner is the `schema_migrations` ledger
(rows in insertion order) and the log of SQL batches executed against the
schema.  Each migration's forward SQL and its ledger insert run inside one
per-version transaction, so a failing version leaves the state untouched
and aborts the run; this is modelled by the `fails` predicate, which says
which SQL batches raise an error when executed. -/

/-- A migration unit (`Migration` interface from `migration-runner.ts`). -/
structure Migration where
  version : Nat
  name : String
  sql : String
  downSql : Option String
deriving DecidableEq, Repr

/-- The database state the migration engine manipulates: the
`schema_migrations` ledger (version, name) and the schema itself,
abstracted as the ordered log of SQL batches executed against it. -/
structure MigState where
  ledger : List (Nat × String)
  executedSql : List String
deriving DecidableEq, Repr

/-- Ascending version order on migrations, the comparator
`(a, b) => a.version - b.version`. -/
def migLE (a b : Migration) : Prop := a.version ≤ b.version

instance : DecidableRel migLE := fun a b => Nat.decLe a.version b.version

instance : IsTotal Migration migLE := ⟨fun a b => Nat.le_total a.version b.version⟩

instance : IsTrans Migration migLE := ⟨fun _ _ _ => Nat.le_trans⟩

/-- `[...migrations].sort((a, b) => a.version - b.version)`: a stable
ascending sort by version (JavaScript `Array.prototype.sort` is stable). -/
def sortByVersion (ms : List Migration) : List Migration :=
  ms.insertionSort migLE

/-- The migration loop of `MigrationRunner.runMigrations`, after the ledger
has been re-read inside the advisory lock: walk the sorted list, skip
versions already in `execed`, and otherwise run the forward SQL and record
the version in the ledger inside one per-version transaction (both effects
or neither), adding the version to the local executed set.  A failing
version rolls its transaction back and aborts the run. -/
def runPending (fails : String → Bool) :
    List Migration → List Nat → MigState → MigState × Except String Unit
  | [], _, st => (st, .ok ())
  | m :: rest, execed, st =>
    if m.version ∈ execed then runPending fails rest execed st
    else if fails m.sql then
      (st, .error ("Migration " ++ toString m.version ++ " failed"))
    else
      runPending fails rest (execed ++ [m.version])
        { ledger := st.ledger ++ [(m.version, m.name)],
          executedSql := st.executedSql ++ [m.sql] }

/-- `MigrationRunner.runMigrations`: sort the input by ascending version,
read the executed versions from the ledger (inside the advisory lock), and
run the pending migrations. -/
def runMigrations (fails : String → Bool) (migrations : List Migration)
    (st : MigState) : MigState × Except String Unit :=
  runPending fails (sortByVersion migrations) (st.ledger.map Prod.fst) st

theorem runPending_all_ok (fails : String → Bool) (ms : List Migration)
    (execed : List Nat) (st : MigState)
    (hdist : (ms.map Migration.version).Nodup)
    (hok : ∀ m ∈ ms, fails m.sql = false) :
    runPending fails ms execed st =
      ({ ledger := st.ledger ++
            (ms.filter (fun m => decide (m.version ∉ execed))).map
              (fun m => (m.version, m.name)),
         executedSql := st.executedSql ++
            (ms.filter (fun m => decide (m.version ∉ execed))).map Migration.sql },
       .ok ()) := by
  induction ms generalizing execed st with
  | nil => simp [runPending]
  | cons m rest ih =>
    have hreq : (rest.map Migration.version).Nodup := (List.nodup_cons.mp hdist).2
    have hrok : ∀ x ∈ rest, fails x.sql = false := fun x hx => hok x (List.mem_cons_of_mem m hx)
    by_cases hmem : m.version ∈ execed
    · rw [runPending, if_pos hmem]
      rw [ih execed st hreq hrok]
      simp [hmem]
    · rw [runPending, if_neg hmem, if_neg (by simp [hok m (List.mem_cons_self m rest)])]
      rw [ih (execed ++ [m.version]) _ hreq hrok]
      have hmv : m.version ∉ rest.map Migration.version := (List.nodup_cons.mp hdist).1
      have hfilt : rest.filter (fun x => decide (x.version ∉ execed ++ [m.version])) =
          rest.filter (fun x => decide (x.version ∉ execed)) := by
        apply List.filter_congr
        intro x hx
        have hne : x.version ≠ m.version := by
          intro he
          exact hmv (he ▸ List.mem_map_of_mem Migration.version hx)
        simp [List.mem_append, hne]
      rw [hfilt]
      simp [hmem, List.append_assoc]

/-- C4 (amended with pairwise-distinct versions): when the provided
migrations have pairwise distinct versions and none of their forward SQL
fails, `runMigrations` succeeds and executes exactly the migrations whose
version is not in the ledger, in strictly ascending version order,
appending each executed version to the ledger (in the same per-version
step as its forward SQL); afterwards the ledger holds exactly the union of
the previously recorded versions and the newly applied ones, and
already-recorded versions are skipped without executing their SQL. -/
theorem runMigrations_applies_unrecorded (fails : String → Bool)
    (migrations : List Migration) (st : MigState)
    (hdist : (migrations.map Migration.version).Nodup)
    (hok : ∀ m ∈ migrations, fails m.sql = false) :
    ∃ pending : List Migration,
      pending = (sortByVersion migrations).filter
          (fun m => decide (m.version ∉ st.ledger.map Prod.fst)) ∧
      runMigrations fails migrations st =
        ({ ledger := st.ledger ++ pending.map (fun m => (m.version, m.name)),
           executedSql := st.executedSql ++ pending.map Migration.sql }, .ok ()) ∧
      List.Pairwise (· < ·) (pending.map Migration.version) ∧
      pending.Perm (migrations.filter
          (fun m => decide (m.version ∉ st.ledger.map Prod.fst))) ∧
      (∀ v, v ∈ ((st.ledger ++ pending.map fun m => (m.version, m.name)).map Prod.fst) ↔
        (v ∈ st.ledger.map Prod.fst ∨ v ∈ pending.map Migration.version)) := by
  have hperm : (sortByVersion migrations).Perm migrations :=
    List.perm_insertionSort migLE migrations
  have hsdist : ((sortByVersion migrations).map Migration.version).Nodup :=
    ((hperm.map Migration.version).nodup_iff).mpr hdist
  have hsok : ∀ m ∈ sortByVersion migrations, fails m.sql = false :=
    fun m hm => hok m (hperm.mem_iff.mp hm)
  refine ⟨(sortByVersion migrations).filter
      (fun m => decide (m.version ∉ st.ledger.map Prod.fst)), rfl, ?_, ?_, ?_, ?_⟩
  · unfold runMigrations
    exact runPending_all_ok fails _ _ st hsdist hsok
  · have hsorted : List.Pairwise migLE (sortByVersion migrations) :=
      List.sorted_insertionSort migLE migrations
    have hple : List.Pairwise migLE
        ((sortByVersion migrations).filter
          (fun m => decide (m.version ∉ st.ledger.map Prod.fst))) :=
      hsorted.filter _
    have hpnd : ((List.filter (fun m => decide (m.version ∉ st.ledger.map Prod.fst))
        (sortByVersion migrations)).map Migration.version).Nodup :=
      List.Nodup.sublist ((List.filter_sublist _).map Migration.version) hsdist
    have hpne : List.Pairwise (fun a b : Migration => a.version ≠ b.version)
        ((sortByVersion migrations).filter
          (fun m => decide (m.version ∉ st.ledger.map Prod.fst))) :=
      List.pairwise_map.mp hpnd
    rw [List.pairwise_map]
    exact (hple.and hpne).imp (fun h => lt_of_le_of_ne h.1 h.2)
  · exact hperm.filter _
  · intro v
    simp [List.mem_append]

/-- Duplicate-version input for the C4 counterexample. -/
def dupMigs : List Migration :=
  [{ version := 1, name := "a", sql := "s1", downSql := none },
   { version := 1, name := "b", sql := "s2", downSql := none }]

/-- C4 counterexample: with an empty ledger and two migrations that share
version 1, the run executes only the first one's SQL, although both
migrations have a version that is not in the ledger — so `runMigrations`
does not execute exactly the migrations whose version is unrecorded. -/
theorem runMigrations_duplicate_version_counterexample :
    (runMigrations (fun _ => false) dupMigs { ledger := [], executedSql := [] }).1 =
      { ledger := [(1, "a")], executedSql := ["s1"] } ∧
    (runMigrations (fun _ => false) dupMigs { ledger := [], executedSql := [] }).2 =
      .ok () ∧
    { version := 1, name := "b", sql := "s2", downSql := none } ∈ dupMigs ∧
    (1 : Nat) ∉ (([] : List (Nat × String)).map Prod.fst) ∧
    "s2" ∉ (runMigrations (fun _ => false) dupMigs
      { ledger := [], executedSql := [] }).1.executedSql := by
  refine ⟨rfl, rfl, by simp [dupMigs], by simp, ?_⟩
  intro h
  simp only [show (runMigrations (fun _ => false) dupMigs
    { ledger := [], executedSql := [] }).1.executedSql = ["s1"] from rfl] at h
  simp at h

/-- Witness for C4 at a concrete input: ledger `{2}`, migrations
`[v1, v2, v3]`; the run applies exactly `v1` then `v3`. -/
theorem runMigrations_applies_unrecorded_witness :
    ∃ pending : List Migration,
      pending = (sortByVersion
          [{ version := 3, name := "c", sql := "s3", downSql := none },
           { version := 1, name := "a", sql := "s1", downSql := none },
           { version := 2, name := "b", sql := "s2", downSql := none }]).filter
          (fun m => decide (m.version ∉
            (MigState.mk [(2, "b")] []).ledger.map Prod.fst)) ∧
      runMigrations (fun _ => false)
          [{ version := 3, name := "c", sql := "s3", downSql := none },
           { version := 1, name := "a", sql := "s1", downSql := none },
           { version := 2, name := "b", sql := "s2", downSql := none }]
          (MigState.mk [(2, "b")] []) =
        ({ ledger := [(2, "b")] ++ pending.map (fun m => (m.version, m.name)),
           executedSql := [] ++ pending.map Migration.sql }, .ok ()) ∧
      List.Pairwise (· < ·) (pending.map Migration.version) ∧
      pending.Perm ([{ version := 3, name := "c", sql := "s3", downSql := none },
           { version := 1, name := "a", sql := "s1", downSql := none },
           { version := 2, name := "b", sql := "s2", downSql := none }].filter
          (fun m => decide (m.version ∉
            (MigState.mk [(2, "b")] []).ledger.map Prod.fst))) ∧
      (∀ v, v ∈ (((MigState.mk [(2, "b")] []).ledger ++
            pending.map fun m => (m.version, m.name)).map Prod.fst) ↔
        (v ∈ (MigState.mk [(2, "b")] []).ledger.map Prod.fst ∨
          v ∈ pending.map Migration.version)) := by
  exact runMigrations_applies_unrecorded (fun _ => false)
    [{ version := 3, name := "c", sql := "s3", downSql := none },
     { version := 1, name := "a", sql := "s1", downSql := none },
     { version := 2, name := "b", sql := "s2", downSql := none }]
    (MigState.mk [(2, "b")] []) (by simp) (by intro m _; rfl)

/-! ### `MigrationRunner.rollback` -/

/-- Descending version order on ledger rows (`ORDER BY version DESC`). -/
def rowGE (a b : Nat × String) : Prop := b.1 ≤ a.1

instance : DecidableRel rowGE := fun a b => Nat.decLe b.1 a.1

instance : IsTotal (Nat × String) rowGE := ⟨fun a b => Nat.le_total b.1 a.1⟩

instance : IsTrans (Nat × String) rowGE :=
  ⟨fun _ _ _ hab hbc => Nat.le_trans hbc hab⟩

/-- `SELECT version, name FROM schema_migrations WHERE version > target
ORDER BY version DESC`. -/
def affectedDesc (st : MigState) (target : Nat) : List (Nat × String) :=
  (st.ledger.filter (fun p => decide (target < p.1))).insertionSort rowGE

/-- `new Map(migrations.map(m => [m.version, m]))`: per JavaScript `Map`
semantics a later entry overwrites an earlier one with the same key, so the
lookup returns the last migration with the given version. -/
def buildMigMap (ms : List Migration) (v : Nat) : Option Migration :=
  ms.reverse.find? (fun m => m.version == v)

/-- A ledger version for which rollback must fail: it is absent from the
provided migration list, or its migration has no backward SQL. -/
def lacksDown (mm : Nat → Option Migration) (v : Nat) : Bool :=
  ((mm v).bind Migration.downSql).isNone

/-- The rollback loop of `MigrationRunner.rollback`: walk the affected
ledger rows newest-to-oldest; for each, fail if the version is missing from
the provided list or has no `downSql`, otherwise execute the backward SQL
and delete the ledger row inside one per-version transaction.  Note the
missing-backward check happens inside the loop, per version, not up
front. -/
def rollbackRows (mm : Nat → Option Migration) :
    List (Nat × String) → MigState → MigState × Except String Unit
  | [], st => (st, .ok ())
  | (v, nm) :: rest, st =>
    match mm v with
    | none => (st, .error ("Migration " ++ toString v ++ " (" ++ nm ++
        ") not found in provided migrations list"))
    | some m =>
      match m.downSql with
      | none => (st, .error ("Migration " ++ toString v ++ " (" ++ nm ++
          ") has no downSql - cannot rollback"))
      | some d =>
        rollbackRows mm rest
          { ledger := st.ledger.filter (fun p => decide (p.1 ≠ v)),
            executedSql := st.executedSql ++ [d] }

/-- `MigrationRunner.rollback`: read the ledger rows above the target in
descending version order and roll each back in turn. -/
def rollback (target : Nat) (migrations : List Migration) (st : MigState) :
    MigState × Except String Unit :=
  rollbackRows (buildMigMap migrations) (affectedDesc st target) st

theorem rollbackRows_stops_at_missing_down (mm : Nat → Option Migration)
    (rows : List (Nat × String)) (st : MigState)
    (h : ∃ p ∈ rows, lacksDown mm p.1 = true) :
    ∃ e, rollbackRows mm rows st =
      ({ ledger := st.ledger.filter (fun q =>
            decide (q.1 ∉ (rows.takeWhile
              (fun p => !(lacksDown mm p.1))).map Prod.fst)),
         executedSql := st.executedSql ++
            (rows.takeWhile (fun p => !(lacksDown mm p.1))).filterMap
              (fun p => (mm p.1).bind Migration.downSql) },
       .error e) := by
  induction rows generalizing st with
  | nil => simp at h
  | cons p rest ih =>
    obtain ⟨v, nm⟩ := p
    cases hld : lacksDown mm v with
    | true =>
      have htake : ((v, nm) :: rest).takeWhile
          (fun p => !(lacksDown mm p.1)) = [] := by
        simp [List.takeWhile, hld]
      rw [htake]
      unfold lacksDown at hld
      cases hmm : mm v with
      | none =>
        refine ⟨"Migration " ++ toString v ++ " (" ++ nm ++
          ") not found in provided migrations list", ?_⟩
        simp only [rollbackRows, hmm]
        simp
      | some m =>
        rw [hmm] at hld
        simp only [Option.some_bind] at hld
        have hdnone : m.downSql = none := Option.isNone_iff_eq_none.mp hld
        refine ⟨"Migration " ++ toString v ++ " (" ++ nm ++
          ") has no downSql - cannot rollback", ?_⟩
        simp only [rollbackRows, hmm, hdnone]
        simp
    | false =>
      unfold lacksDown at hld
      cases hmm : mm v with
      | none => rw [hmm] at hld; simp at hld
      | some m =>
        rw [hmm] at hld
        simp only [Option.some_bind] at hld
        cases hd : m.downSql with
        | none => rw [hd] at hld; simp at hld
        | some d =>
          have hhead : lacksDown mm v = false := by
            unfold lacksDown; rw [hmm]; simp [hd]
          have hrest : ∃ p ∈ rest, lacksDown mm p.1 = true := by
            rcases h with ⟨q, hq, hlq⟩
            rcases List.mem_cons.mp hq with rfl | hq'
            · rw [hhead] at hlq; cases hlq
            · exact ⟨q, hq', hlq⟩
          have htake : ((v, nm) :: rest).takeWhile
              (fun p => !(lacksDown mm p.1)) =
              (v, nm) :: rest.takeWhile (fun p => !(lacksDown mm p.1)) := by
            simp [List.takeWhile, hhead]
          rw [htake]
          simp only [rollbackRows, hmm, hd]
          obtain ⟨e, he⟩ := ih _ hrest
          refine ⟨e, ?_⟩
          rw [he]
          have hled : (st.ledger.filter (fun p => decide (p.1 ≠ v))).filter
              (fun q => decide (q.1 ∉ (rest.takeWhile
                (fun p => !(lacksDown mm p.1))).map Prod.fst)) =
              st.ledger.filter (fun q => decide (q.1 ∉ ((v, nm) ::
                rest.takeWhile (fun p => !(lacksDown mm p.1))).map Prod.fst)) := by
            rw [List.filter_filter]
            apply List.filter_congr
            intro q _
            rcases Decidable.em (q.1 = v) with hqv | hqv
            · simp [hqv]
            · simp [hqv]
          have hsql : (st.executedSql ++ [d]) ++
              (rest.takeWhile (fun p => !(lacksDown mm p.1))).filterMap
                (fun p => (mm p.1).bind Migration.downSql) =
              st.executedSql ++ (((v, nm) :: rest.takeWhile
                (fun p => !(lacksDown mm p.1))).filterMap
                  (fun p => (mm p.1).bind Migration.downSql)) := by
            rw [List.filterMap_cons]
            simp [hmm, hd, List.append_assoc]
          rw [Prod.mk.injEq, MigState.mk.injEq]
          refine ⟨⟨?_, ?_⟩, rfl⟩
          · simpa using hled
          · simpa using hsql

/-- C1 (amended): if any ledger-recorded version above the target lacks
backward SQL in the provided migration list (or is absent from it),
`rollback` fails — but it does not leave the state untouched in general:
the affected versions are undone newest-to-oldest, and every version
processed before the first offending one has had its backward SQL executed
and its ledger row deleted; only when the highest affected version is
itself the offender is the state completely unchanged. -/
theorem rollback_missing_down_partial (target : Nat)
    (migrations : List Migration) (st : MigState)
    (h : ∃ p ∈ affectedDesc st target,
      lacksDown (buildMigMap migrations) p.1 = true) :
    ∃ e, (rollback target migrations st).2 = .error e ∧
      (rollback target migrations st).1 =
        { ledger := st.ledger.filter (fun q =>
            decide (q.1 ∉ ((affectedDesc st target).takeWhile
              (fun p => !(lacksDown (buildMigMap migrations) p.1))).map Prod.fst)),
          executedSql := st.executedSql ++
            ((affectedDesc st target).takeWhile
              (fun p => !(lacksDown (buildMigMap migrations) p.1))).filterMap
              (fun p => (buildMigMap migrations p.1).bind Migration.downSql) } ∧
      (∀ q rest, affectedDesc st target = q :: rest →
        lacksDown (buildMigMap migrations) q.1 = true →
        (rollback target migrations st).1 = st) := by
  obtain ⟨e, he⟩ :=
    rollbackRows_stops_at_missing_down (buildMigMap migrations)
      (affectedDesc st target) st h
  refine ⟨e, ?_, ?_, ?_⟩
  · unfold rollback
    rw [he]
  · unfold rollback
    rw [he]
  · intro q rest hrows hlq
    unfold rollback
    rw [he]
    have htake : (affectedDesc st target).takeWhile
        (fun p => !(lacksDown (buildMigMap migrations) p.1)) = [] := by
      rw [hrows]
      simp [List.takeWhile, hlq]
    rw [htake]
    simp

/-- Ledger for the C1 counterexample: versions 1, 2, 3 recorded. -/
def rollbackLedgerSample : MigState :=
  { ledger := [(1, "a"), (2, "b"), (3, "c")], executedSql := [] }

/-- Migrations for the C1 counterexample: version 3 has backward SQL,
version 2 does not. -/
def rollbackMigsSample : List Migration :=
  [{ version := 2, name := "b", sql := "u2", downSql := none },
   { version := 3, name := "c", sql := "u3", downSql := some "d3" }]

/-- C1 counterexample: rolling back to version 1 when version 2 lacks
backward SQL does fail, but only after version 3's backward SQL has been
executed and version 3's ledger row deleted — the ledger and schema state
are not left unchanged, refuting the claim as stated. -/
theorem rollback_missing_down_counterexample :
    (rollback 1 rollbackMigsSample rollbackLedgerSample).2 =
      .error "Migration 2 (b) has no downSql - cannot rollback" ∧
    (rollback 1 rollbackMigsSample rollbackLedgerSample).1 =
      { ledger := [(1, "a"), (2, "b")], executedSql := ["d3"] } ∧
    (rollback 1 rollbackMigsSample rollbackLedgerSample).1 ≠
      rollbackLedgerSample := by
  refine ⟨rfl, rfl, ?_⟩
  intro hcontra
  rw [show (rollback 1 rollbackMigsSample rollbackLedgerSample).1 =
      { ledger := [(1, "a"), (2, "b")], executedSql := ["d3"] } from rfl] at hcontra
  simp [rollbackLedgerSample] at hcontra

/-- Witness for the amended C1 theorem at the counterexample input:
rollback fails with an error and exactly version 3 has been undone. -/
theorem rollback_missing_down_partial_witness :
    ∃ e, (rollback 1 rollbackMigsSample rollbackLedgerSample).2 = .error e ∧
      (rollback 1 rollbackMigsSample rollbackLedgerSample).1 =
        { ledger := rollbackLedgerSample.ledger.filter (fun q =>
            decide (q.1 ∉ ((affectedDesc rollbackLedgerSample 1).takeWhile
              (fun p => !(lacksDown (buildMigMap rollbackMigsSample) p.1))).map Prod.fst)),
          executedSql := rollbackLedgerSample.executedSql ++
            ((affectedDesc rollbackLedgerSample 1).takeWhile
              (fun p => !(lacksDown (buildMigMap rollbackMigsSample) p.1))).filterMap
              (fun p => (buildMigMap rollbackMigsSample p.1).bind Migration.downSql) } ∧
      (∀ q rest, affectedDesc rollbackLedgerSample 1 = q :: rest →
        lacksDown (buildMigMap rollbackMigsSample) q.1 = true →
        (rollback 1 rollbackMigsSample rollbackLedgerSample).1 =
          rollbackLedgerSample) := by
  exact rollback_missing_down_partial 1 rollbackMigsSample rollbackLedgerSample
    (by decide)

/-! ### `MigrationRunner.discoverMigrations`

File discovery is modelled on the list of `.sql` files the directory walk
yields (name and content); string processing is done on code-point lists,
which model JavaScript's per-code-unit string operations. -/

/-- A migration file as seen by the directory walk. -/
structure MigFile where
  name : String
  content : String
deriving DecidableEq, Repr

/-- The `up`/`down` suffix of a migration filename. -/
inductive MigDirection where
  | up
  | down
deriving DecidableEq, Repr

/-- JavaScript `content.split("\n")`. -/
def splitOnNl : List Char → List (List Char)
  | [] => [[]]
  | c :: cs =>
    let r := splitOnNl cs
    if c = '\n' then [] :: r
    else
      match r with
      | [] => [[c]]
      | h :: t => (c :: h) :: t

/-- JavaScript `String.prototype.trim` (leading and trailing whitespace
removed). -/
def trimChars (s : List Char) : List Char :=
  ((s.dropWhile Char.isWhitespace).reverse.dropWhile Char.isWhitespace).reverse

/-- JavaScript `String.prototype.toLowerCase` (on the code points that
matter here, ASCII). -/
def lowerChars (s : List Char) : List Char := s.map Char.toLower

/-- Strip a suffix, if present. -/
def dropSuffixCL (s suf : List Char) : Option (List Char) :=
  if suf.isSuffixOf s then some (s.take (s.length - suf.length)) else none

/-- `parseInt(versionStr, 10)` on an all-digit string. -/
def digitsToNat (ds : List Char) : Nat :=
  ds.foldl (fun acc c => 10 * acc + (c.toNat - 48)) 0

/-- The filename pattern of `discoverMigrations`:
`^(\d+)_(.+?)(?:\.(up|down))?\.sql$`.  The version is the maximal leading
digit run, which the regex requires to be followed by `_`; the non-greedy
name group makes the match recognise a trailing `.up`/`.down` marker
whenever one is present with a non-empty name before it.  Returns
`(version, name, direction)` or `none` for a file that is skipped. -/
def parseMigFilename (filename : String) :
    Option (Nat × List Char × Option MigDirection) :=
  match dropSuffixCL filename.data ".sql".data with
  | none => none
  | some core =>
    match core.takeWhile Char.isDigit with
    | [] => none
    | d :: ds =>
      let digits := d :: ds
      match core.drop digits.length with
      | '_' :: rest =>
        match rest with
        | [] => none
        | _ :: _ =>
          match dropSuffixCL rest ".up".data with
          | some p =>
            if p.isEmpty then some (digitsToNat digits, rest, none)
            else some (digitsToNat digits, p, some .up)
          | none =>
            match dropSuffixCL rest ".down".data with
            | some p =>
              if p.isEmpty then some (digitsToNat digits, rest, none)
              else some (digitsToNat digits, p, some .down)
            | none => some (digitsToNat digits, rest, none)
      | _ => none

/-- One line of `parseSingleMigrationFile`'s section scanner: the
accumulator holds the up text, the down text and the current section. -/
def sectionStep (acc : List Char × List Char × MigDirection) (line : List Char) :
    List Char × List Char × MigDirection :=
  let t := lowerChars (trimChars line)
  if ("-- up".data.isPrefixOf t) || ("--up".data.isPrefixOf t) then
    (acc.1, acc.2.1, .up)
  else if ("-- down".data.isPrefixOf t) || ("--down".data.isPrefixOf t) then
    (acc.1, acc.2.1, .down)
  else
    match acc.2.2 with
    | .up => (acc.1 ++ line ++ ['\n'], acc.2.1, .up)
    | .down => (acc.1, acc.2.1 ++ line ++ ['\n'], .down)

/-- `parseSingleMigrationFile`: split a single migration file into its up
section and optional down section using `-- UP`/`-- DOWN` marker lines (the
scan defaults to the up section); both results are trimmed and an empty
down section becomes `none`. -/
def parseSingleMigrationFile (content : String) : String × Option String :=
  let res := (splitOnNl content.data).foldl sectionStep ([], [], .up)
  (String.mk (trimChars res.1),
   if trimChars res.2.1 = [] then none else some (String.mk (trimChars res.2.1)))

/-- The partial migration record accumulated per version during
discovery. -/
structure PartialMig where
  name : String
  sql : Option String
  downSql : Option String
deriving DecidableEq, Repr

/-- `name.replace(/_/g, " ")`. -/
def underscoresToSpaces (s : List Char) : String :=
  String.mk (s.map (fun c => if c = '_' then ' ' else c))

/-- Merge one parsed file into a version's partial record: a `.down.sql`
file sets the backward SQL, an `.up.sql` file sets the forward SQL, and a
plain file is section-parsed — its up section always becomes the forward
SQL and its down section, when present, the backward SQL. -/
def updatePartial (dir : Option MigDirection) (content : String)
    (p : PartialMig) : PartialMig :=
  match dir with
  | some .down => { p with downSql := some content }
  | some .up => { p with sql := some content }
  | none =>
    let s := parseSingleMigrationFile content
    { p with sql := some s.1,
             downSql := match s.2 with
               | some dsql => some dsql
               | none => p.downSql }

/-- Process one file of the directory walk: unparsable names are skipped;
the first file of a version creates its entry (fixing the displayed name),
later files update it. -/
def applyFile (acc : List (Nat × PartialMig)) (f : MigFile) :
    List (Nat × PartialMig) :=
  match parseMigFilename f.name with
  | none => acc
  | some (version, rawName, dir) =>
    let acc' :=
      if acc.any (fun q => q.1 == version) then acc
      else acc ++ [(version,
        { name := underscoresToSpaces rawName, sql := none, downSql := none })]
    acc'.map (fun q =>
      if q.1 == version then (q.1, updatePartial dir f.content q.2) else q)

/-- The error `discoverMigrations` throws for a version with no forward
SQL. -/
def missingUpMsg (v : Nat) (nm : String) : String :=
  "Migration " ++ (toString v ++ (" (" ++ nm ++ ") is missing up SQL"))

/-- A version's partial record that fails validation: its forward SQL is
absent, or it is the empty string (JavaScript `!partial.sql` treats both as
falsy). -/
def badUp (p : PartialMig) : Bool :=
  match p.sql with
  | none => true
  | some s => s == ""

/-- The validation loop of `discoverMigrations`: walk the version map in
insertion order and throw at the first version whose forward SQL is missing
or empty; otherwise assemble the migration records. -/
def validateDiscovered : List (Nat × PartialMig) → Except String (List Migration)
  | [] => .ok []
  | (v, p) :: rest =>
    match p.sql with
    | none => .error (missingUpMsg v p.name)
    | some s =>
      if s == "" then .error (missingUpMsg v p.name)
      else
        match validateDiscovered rest with
        | .error e => .error e
        | .ok tail =>
          .ok ({ version := v, name := p.name, sql := s, downSql := p.downSql } :: tail)

/-- `MigrationRunner.discoverMigrations` on the walked file list: fold the
files into the version map, validate every version has forward SQL, sort
ascending by version; a validation error is wrapped by the outer catch
block (`Failed to discover migrations ...: ${error}`).  Discovery is a pure
function of the file list — it executes no migration and mutates no
database state. -/
def discoverMigrations (files : List MigFile) : Except String (List Migration) :=
  match validateDiscovered (files.foldl applyFile []) with
  | .error msg => .error ("Failed to discover migrations: Error: " ++ msg)
  | .ok ms => .ok (ms.insertionSort migLE)

/-- The migration a valid partial record denotes. -/
def completePartial (pr : Nat × PartialMig) : Migration :=
  { version := pr.1, name := pr.2.name, sql := (pr.2.sql).getD "",
    downSql := pr.2.downSql }

theorem validateDiscovered_error (l : List (Nat × PartialMig)) (msg : String)
    (h : validateDiscovered l = .error msg) :
    ∃ pr ∈ l, badUp pr.2 = true ∧ msg = missingUpMsg pr.1 pr.2.name := by
  induction l with
  | nil => simp [validateDiscovered] at h
  | cons q rest ih =>
    obtain ⟨v, p⟩ := q
    rw [validateDiscovered] at h
    cases hs : p.sql with
    | none =>
      rw [hs] at h
      refine ⟨(v, p), List.mem_cons_self _ _, ?_, ?_⟩
      · simp [badUp, hs]
      · cases h; rfl
    | some s =>
      rw [hs] at h
      by_cases hse : (s == "") = true
      · simp only [hse, if_true] at h
        refine ⟨(v, p), List.mem_cons_self _ _, ?_, ?_⟩
        · simp [badUp, hs, hse]
        · cases h; rfl
      · simp only [hse, if_false] at h
        cases hrest : validateDiscovered rest with
        | error e =>
          rw [hrest] at h
          cases h
          obtain ⟨pr, hpr, hbad, hmsg⟩ := ih hrest
          exact ⟨pr, List.mem_cons_of_mem _ hpr, hbad, hmsg⟩
        | ok tail => rw [hrest] at h; cases h

theorem validateDiscovered_ok (l : List (Nat × PartialMig)) (ms : List Migration)
    (h : validateDiscovered l = .ok ms) :
    (∀ pr ∈ l, badUp pr.2 = false) ∧ ms = l.map completePartial := by
  induction l generalizing ms with
  | nil =>
    rw [validateDiscovered] at h
    cases h
    exact ⟨by simp, by simp⟩
  | cons q rest ih =>
    obtain ⟨v, p⟩ := q
    rw [validateDiscovered] at h
    cases hs : p.sql with
    | none => rw [hs] at h; cases h
    | some s =>
      rw [hs] at h
      by_cases hse : (s == "") = true
      · simp only [hse, if_true] at h; cases h
      · simp only [hse, if_false] at h
        cases hrest : validateDiscovered rest with
        | error e => rw [hrest] at h; cases h
        | ok tail =>
          rw [hrest] at h
          cases h
          obtain ⟨hall, htail⟩ := ih tail hrest
          refine ⟨?_, ?_⟩
          · intro pr hpr
            rcases List.mem_cons.mp hpr with rfl | hpr'
            · simp [badUp, hs, hse]
            · exact hall pr hpr'
          · simp [htail, completePartial, hs, List.map_cons]

/-- C9: on every file list, if any discovered version has no forward (up)
SQL — only a `.down.sql` file, or a single file whose up section is empty —
then `discoverMigrations` fails with an error naming that version (and,
being a pure function of the files, executes no migration and mutates no
state); otherwise it returns the discovered migrations sorted by ascending
version. -/
theorem discoverMigrations_semantics (files : List MigFile) :
    match discoverMigrations files with
    | .error msg =>
      ∃ pr ∈ files.foldl applyFile [], badUp pr.2 = true ∧
        ∃ pre post, msg = pre ++ (toString pr.1 ++ post)
    | .ok ms =>
      (∀ pr ∈ files.foldl applyFile [], badUp pr.2 = false) ∧
      List.Sorted migLE ms ∧
      ms.Perm ((files.foldl applyFile []).map completePartial) := by
  unfold discoverMigrations
  cases hval : validateDiscovered (files.foldl applyFile []) with
  | error msg =>
    obtain ⟨pr, hpr, hbad, hmsg⟩ := validateDiscovered_error _ _ hval
    refine ⟨pr, hpr, hbad, "Failed to discover migrations: Error: Migration ",
      " (" ++ pr.2.name ++ ") is missing up SQL", ?_⟩
    rw [hmsg]
    unfold missingUpMsg
    rw [← String.append_assoc]
    exact rfl
  | ok ms =>
    obtain ⟨hall, hms⟩ := validateDiscovered_ok _ _ hval
    refine ⟨hall, List.sorted_insertionSort migLE ms, ?_⟩
    rw [← hms]
    exact List.perm_insertionSort migLE ms

/-- Witness for C9 at a concrete input: a directory containing only
`001_foo.down.sql` discovers version 1 without forward SQL, and discovery
fails with an error message naming version 1. -/
theorem discoverMigrations_semantics_witness :
    ∃ pr ∈ [MigFile.mk "001_foo.down.sql" "DROP TABLE t;"].foldl applyFile [],
      badUp pr.2 = true ∧
      ∃ pre post,
        "Failed to discover migrations: Error: Migration 1 (foo) is missing up SQL" =
          pre ++ (toString pr.1 ++ post) := by
  have h := discoverMigrations_semantics [MigFile.mk "001_foo.down.sql" "DROP TABLE t;"]
  rw [show discoverMigrations [MigFile.mk "001_foo.down.sql" "DROP TABLE t;"] =
    .error "Failed to discover migrations: Error: Migration 1 (foo) is missing up SQL"
    from rfl] at h
  exact h

/-! ## Tenant binding and PostgreSQL configuration-parameter scope
(`src/infrastructure/database/tenant-context.ts` and
`src/infrastructure/migrations/004_enable_rls_enforcement.sql`)

`set_config('pond.current_tenant_id', v, is_local)` follows PostgreSQL GUC
semantics: with `is_local = true` the assignment is transaction-local
(discarded at commit and rollback, and without lasting effect outside a
transaction); with `is_local = false` it is session-level — it survives
commit (and is undone by rollback).  A connection's state is modelled by
the committed session value, the pending in-transaction session and local
assignments, and whether a transaction is open. -/

/-- The `pond.current_tenant_id` configuration state of one connection. -/
structure GucState where
  committedVal : Option String
  txSession : Option String
  txLocal : Option String
  inTx : Bool
deriving DecidableEq, Repr

/-- A fresh pooled connection: no tenant binding at all. -/
def GucState.clean : GucState :=
  { committedVal := none, txSession := none, txLocal := none, inTx := false }

/-- The statements that touch the tenant binding. -/
inductive TenantOp where
  | beginTx
  | commitTx
  | rollbackTx
  | setConfigSession (t : String)
  | setConfigLocal (t : String)
deriving DecidableEq, Repr

/-- `TenantContext.setTenant` (`tenant-context.ts`):
`SELECT set_config('pond.current_tenant_id', $tenantId, false)` — a
session-scoped assignment. -/
def tenantContextSetTenant (t : String) : TenantOp := .setConfigSession t

/-- `pond_set_tenant_context` (`004_enable_rls_enforcement.sql`):
`PERFORM set_config('pond.current_tenant_id', tenant_uuid::text, true)` — a
transaction-local assignment (the function also rejects a NULL tenant,
which total strings cannot express). -/
def pondSetTenantContext (t : String) : TenantOp := .setConfigLocal t

/-- One statement's effect on the configuration state. -/
def applyOp (st : GucState) : TenantOp → GucState
  | .beginTx => { st with inTx := true, txSession := none, txLocal := none }
  | .commitTx =>
    { committedVal := st.txSession <|> st.committedVal,
      txSession := none, txLocal := none, inTx := false }
  | .rollbackTx =>
    { committedVal := st.committedVal,
      txSession := none, txLocal := none, inTx := false }
  | .setConfigSession t =>
    if st.inTx then { st with txSession := some t }
    else { st with committedVal := some t }
  | .setConfigLocal t =>
    if st.inTx then { st with txLocal := some t } else st

/-- The binding `current_setting('pond.current_tenant_id')` observes. -/
def currentBinding (st : GucState) : Option String :=
  if st.inTx then st.txLocal <|> (st.txSession <|> st.committedVal)
  else st.committedVal

/-- Run a statement sequence on a connection. -/
def runOps (st : GucState) (ops : List TenantOp) : GucState :=
  ops.foldl applyOp st

/-- C8 counterexample: on a fresh connection, a unit of work that binds the
tenant with `TenantContext.setTenant` (`set_config(..., false)`) inside a
transaction and commits leaves the session binding set after the
transaction has ended — the binding is session-scoped, not
transaction-scoped, and is observable by the next user of the pooled
connection. -/
theorem tenant_binding_leak_counterexample :
    (runOps GucState.clean
      [TenantOp.beginTx, tenantContextSetTenant "7f000001-0000-4000-8000-000000000001",
       TenantOp.commitTx]).inTx = false ∧
    currentBinding (runOps GucState.clean
      [TenantOp.beginTx, tenantContextSetTenant "7f000001-0000-4000-8000-000000000001",
       TenantOp.commitTx]) = some "7f000001-0000-4000-8000-000000000001" ∧
    currentBinding (runOps GucState.clean
      [TenantOp.beginTx, tenantContextSetTenant "7f000001-0000-4000-8000-000000000001",
       TenantOp.commitTx]) ≠ none := by
  refine ⟨rfl, rfl, ?_⟩
  intro h
  rw [show currentBinding (runOps GucState.clean
      [TenantOp.beginTx, tenantContextSetTenant "7f000001-0000-4000-8000-000000000001",
       TenantOp.commitTx]) = some "7f000001-0000-4000-8000-000000000001" from rfl] at h
  cases h

/-- C8 (amended): the binding set through `pond_set_tenant_context` —
`set_config(..., true)`, the call the repository issues before every data
operation — is scoped to the current transaction only: any statement
sequence free of session-scoped assignments leaves the committed session
binding exactly as it was, and once no transaction is open the observable
binding equals that unchanged value (none on a connection that never had a
session-scoped binding).  `TenantContext.setTenant`, by contrast, uses
`set_config(..., false)` and its binding survives commit, as the
counterexample shows. -/
theorem local_tenant_binding_tx_scoped (st : GucState) (ops : List TenantOp)
    (hsess : st.txSession = none)
    (hops : ∀ op ∈ ops, ∀ t, op ≠ TenantOp.setConfigSession t) :
    (runOps st ops).committedVal = st.committedVal ∧
    ((runOps st ops).inTx = false →
      currentBinding (runOps st ops) = st.committedVal) := by
  have main : ∀ ops' (st' : GucState), st'.txSession = none →
      (∀ op ∈ ops', ∀ t, op ≠ TenantOp.setConfigSession t) →
      (runOps st' ops').committedVal = st'.committedVal ∧
      (runOps st' ops').txSession = none := by
    intro ops'
    induction ops' with
    | nil => intro st' hs _; exact ⟨rfl, hs⟩
    | cons op rest ih =>
      intro st' hs hops'
      have hrest : ∀ o ∈ rest, ∀ t, o ≠ TenantOp.setConfigSession t :=
        fun o ho => hops' o (List.mem_cons_of_mem op ho)
      have hstep : (applyOp st' op).committedVal = st'.committedVal ∧
          (applyOp st' op).txSession = none := by
        cases op with
        | beginTx => exact ⟨rfl, rfl⟩
        | commitTx =>
          refine ⟨?_, rfl⟩
          simp [applyOp, hs]
        | rollbackTx => exact ⟨rfl, rfl⟩
        | setConfigSession t =>
          exact absurd rfl (hops' _ (List.mem_cons_self _ _) t)
        | setConfigLocal t =>
          by_cases htx : st'.inTx
          · simp [applyOp, htx, hs]
          · simp [applyOp, htx, hs]
      have := ih (applyOp st' op) hstep.2 hrest
      refine ⟨?_, this.2⟩
      calc (runOps st' (op :: rest)).committedVal
          = (runOps (applyOp st' op) rest).committedVal := rfl
        _ = (applyOp st' op).committedVal := this.1
        _ = st'.committedVal := hstep.1
  obtain ⟨hval, _⟩ := main ops st hsess hops
  refine ⟨hval, ?_⟩
  intro hnotx
  rw [currentBinding, if_neg (by simp [hnotx]), hval]

/-- Witness for the amended C8 theorem: a unit of work that binds the
tenant through `pond_set_tenant_context` and commits leaves a fresh
connection with no observable binding. -/
theorem local_tenant_binding_tx_scoped_witness :
    (runOps GucState.clean
      [TenantOp.beginTx, pondSetTenantContext "7f000001-0000-4000-8000-000000000001",
       TenantOp.commitTx]).committedVal = GucState.clean.committedVal ∧
    ((runOps GucState.clean
      [TenantOp.beginTx, pondSetTenantContext "7f000001-0000-4000-8000-000000000001",
       TenantOp.commitTx]).inTx = false →
      currentBinding (runOps GucState.clean
        [TenantOp.beginTx, pondSetTenantContext "7f000001-0000-4000-8000-000000000001",
         TenantOp.commitTx]) = GucState.clean.committedVal) := by
  exact local_tenant_binding_tx_scoped GucState.clean
    [TenantOp.beginTx, pondSetTenantContext "7f000001-0000-4000-8000-000000000001",
     TenantOp.commitTx] rfl
    (by
      intro op hop t
      simp only [List.mem_cons, List.not_mem_nil, or_false] at hop
      rcases hop with rfl | rfl | rfl
      · intro hcontra; cases hcontra
      · intro hcontra; cases hcontra
      · intro hcontra; cases hcontra)

/-! ## Domain value objects
(`src/domain/entities/memory.ts`, `source.ts`, `entity.ts`, the `Tag`
class, and the shared helpers) -/

/-- Coerce to a signed 32-bit integer: the `hash = hash & hash` step of the
JavaScript hash functions. -/
def toInt32 (x : Int) : Int := (x + 2 ^ 31) % 2 ^ 32 - 2 ^ 31

/-- The loop `hash = ((hash << 5) - hash) + charCode; hash = hash & hash`
over a string's code points (`(hash << 5) - hash = 31 * hash`, computed
exactly in doubles before the 32-bit coercion). -/
def jsStringHash (s : String) : Int :=
  s.data.foldl (fun h c => toInt32 (h * 31 + (c.toNat : Int))) 0

/-- Digit characters for `Number.prototype.toString(radix)` (lowercase). -/
def digitChar36 (n : Nat) : Char :=
  if n < 10 then Char.ofNat (48 + n) else Char.ofNat (87 + n)

/-- Fuel-indexed base conversion loop. -/
def natToBaseAux (b : Nat) : Nat → Nat → List Char → List Char
  | 0, _, acc => acc
  | fuel + 1, n, acc =>
    if n = 0 then acc else natToBaseAux b fuel (n / b) (digitChar36 (n % b) :: acc)

/-- `Number.prototype.toString(b)` for a natural number. -/
def natToBaseStr (b n : Nat) : String :=
  if n = 0 then "0" else String.mk (natToBaseAux b (n + 1) n [])

/-- `Number.prototype.toString(16)` on a 32-bit integer (negative values
render as `-` followed by the hex digits of the absolute value). -/
def intToHexStr (x : Int) : String :=
  if x < 0 then "-" ++ natToBaseStr 16 x.natAbs else natToBaseStr 16 x.natAbs

/-- `Memory.generateContentHash`: the 32-bit string hash rendered in
base 16. -/
def memoryContentHash (content : String) : String :=
  intToHexStr (jsStringHash content)

/-- The memory lifecycle status enumeration from
`src/domain/shared/types.ts`: `DRAFT`, `STORED`. -/
inductive MemoryStatus where
  | draft
  | stored
deriving DecidableEq, Repr

/-- The source provenance type enumeration from
`src/domain/shared/types.ts`: `CLAUDE_CODE = "claude-code"`,
`MANUAL = "manual"`, `IMPORT = "import"`, `API = "api"`. -/
inductive SourceType where
  | claudeCode
  | manual
  | imported
  | api
deriving DecidableEq, Repr

/-- The string value of a `SourceType` member (the value used in the
source hash input and stored in the `sources.type` column). -/
def SourceType.str : SourceType → String
  | .claudeCode => "claude-code"
  | .manual => "manual"
  | .imported => "import"
  | .api => "api"

/-- `toLowerCase()` per character, embedded exactly for the Basic Latin
and Latin-1 blocks: `A`-`Z` and `À`-`Þ` (except `×`) map to the lowercase
form 32 code points higher, dotted capital `İ` maps to `i` followed by
combining dot above (U+0307), every other character is returned
unchanged.  Code points above U+00FF with case mappings outside these
blocks are not lowered by the model. -/
def jsLower (c : Char) : List Char :=
  if 'A' ≤ c ∧ c ≤ 'Z' then [Char.ofNat (c.toNat + 32)]
  else if c.toNat = 0x130 then ['i', '\u0307']
  else if 0xC0 ≤ c.toNat ∧ c.toNat ≤ 0xDE ∧ c.toNat ≠ 0xD7 then
    [Char.ofNat (c.toNat + 32)]
  else [c]

/-- `normalize("NFD")` per character, embedded for the lowercase Latin-1
block (`slugify` applies it after lowercasing): each precomposed
lowercase Latin-1 letter decomposes into its base letter followed by its
combining mark (all in U+0300-U+036F); letters without a decomposition
(`æ ð ø þ ß`) and everything else are returned unchanged. -/
def nfdChar (c : Char) : List Char :=
  match c.toNat with
  | 0xE0 => ['a', '\u0300']
  | 0xE1 => ['a', '\u0301']
  | 0xE2 => ['a', '\u0302']
  | 0xE3 => ['a', '\u0303']
  | 0xE4 => ['a', '\u0308']
  | 0xE5 => ['a', '\u030A']
  | 0xE7 => ['c', '\u0327']
  | 0xE8 => ['e', '\u0300']
  | 0xE9 => ['e', '\u0301']
  | 0xEA => ['e', '\u0302']
  | 0xEB => ['e', '\u0308']
  | 0xEC => ['i', '\u0300']
  | 0xED => ['i', '\u0301']
  | 0xEE => ['i', '\u0302']
  | 0xEF => ['i', '\u0308']
  | 0xF1 => ['n', '\u0303']
  | 0xF2 => ['o', '\u0300']
  | 0xF3 => ['o', '\u0301']
  | 0xF4 => ['o', '\u0302']
  | 0xF5 => ['o', '\u0303']
  | 0xF6 => ['o', '\u0308']
  | 0xF9 => ['u', '\u0300']
  | 0xFA => ['u', '\u0301']
  | 0xFB => ['u', '\u0302']
  | 0xFC => ['u', '\u0308']
  | 0xFD => ['y', '\u0301']
  | 0xFF => ['y', '\u0308']
  | _ => [c]

/-- The combining diacritical marks range `[\u0300-\u036f]` that
`slugify` strips right after NFD normalization. -/
def isCombiningMark (c : Char) : Bool :=
  decide (0x300 ≤ c.toNat) && decide (c.toNat ≤ 0x36F)

/-- The `\p{Letter}\p{Number}` test of `slugify`'s keep-regex, embedded
exactly for the Basic Latin and Latin-1 blocks (ASCII alphanumerics, the
letters `ª µ º`, the number forms `¹ ² ³ ¼ ½ ¾`, and the Latin-1 letters
`À`-`ÿ` minus `× ÷`).  Every code point above U+00FF is modelled as a
letter: exact for letter/number scripts (Greek, Cyrillic, CJK, ...), an
over-approximation for symbol and punctuation code points there. -/
def isLetterOrNumberChar (c : Char) : Bool :=
  c.isAlphanum || decide (0x100 ≤ c.toNat) ||
  decide (c.toNat = 0xAA) || decide (c.toNat = 0xB5) ||
  decide (c.toNat = 0xBA) || decide (c.toNat = 0xB9) ||
  (decide (0xB2 ≤ c.toNat) && decide (c.toNat ≤ 0xB3)) ||
  (decide (0xBC ≤ c.toNat) && decide (c.toNat ≤ 0xBE)) ||
  (decide (0xC0 ≤ c.toNat) && decide (c.toNat ≤ 0xFF) &&
    !decide (c.toNat = 0xD7) && !decide (c.toNat = 0xF7))

/-- A separator character of `slugify`'s collapse step (`[\s_-]`). -/
def isSepChar (c : Char) : Bool :=
  c.isWhitespace || c == '-' || c == '_'

/-- `replace(/[\s_-]+/g, "-")`: each maximal run of separators becomes a
single hyphen. -/
def sepRunsToHyphens : List Char → List Char
  | [] => []
  | c :: rest =>
    let r := sepRunsToHyphens rest
    if isSepChar c then
      match rest with
      | c2 :: _ => if isSepChar c2 then r else '-' :: r
      | [] => '-' :: r
    else c :: r

/-- `slugify` from `src/domain/shared/slugify.ts` (its two call sites,
`Tag` and `Action`, pass no locale): lowercase, NFD-normalize and strip
the combining marks `[\u0300-\u036f]`, remove every character that is
not a Unicode letter/number, whitespace, hyphen or underscore, collapse
separator runs `[\s_-]+` to single hyphens, and trim edge hyphens.  The
per-character Unicode primitives (`jsLower`, `nfdChar`,
`isLetterOrNumberChar`) are embedded exactly for the Basic Latin and
Latin-1 blocks, as documented on each. -/
def slugify (s : String) : String :=
  let base := ((s.data.flatMap jsLower).flatMap nfdChar).filter
    (fun c => !(isCombiningMark c))
  let kept := base.filter (fun c =>
    isLetterOrNumberChar c || c.isWhitespace || c == '-' || c == '_')
  String.mk (((sepRunsToHyphens kept).dropWhile (· = '-')).reverse.dropWhile
    (· = '-') |>.reverse)

/-- Turn whitespace runs into single hyphens (`replace(/\s+/g, "-")`). -/
def wsRunsToHyphens : List Char → List Char
  | [] => []
  | c :: rest =>
    let r := wsRunsToHyphens rest
    if c.isWhitespace then
      match rest with
      | c2 :: _ => if c2.isWhitespace then r else '-' :: r
      | [] => '-' :: r
    else c :: r

/-- `Tag.normalize` (the `Tag` class lives at the end of `memory.ts`):
`tag.toLowerCase().trim().replace(/\s+/g, "-")`, with the same embedded
`toLowerCase` as `slugify`. -/
def normalizeTag (s : String) : String :=
  String.mk (wsRunsToHyphens (trimChars (s.data.flatMap jsLower)))

/-- The `Tag` value object: raw text, normalized form and slug. -/
structure Tag where
  raw : String
  normalized : String
  slug : String
deriving DecidableEq, Repr

/-- The `Tag` constructor. -/
def Tag.make (raw : String) : Tag :=
  { raw := raw, normalized := normalizeTag raw, slug := slugify raw }

/-- The `Entity` value object (`entity.ts`): plain text and type, no
validation. -/
structure Entity where
  text : String
  type_ : String
deriving DecidableEq, Repr

/-- The `Action` value object (`src/domain/entities/action.ts`): the
action text and the slug derived from it. -/
structure Action where
  action : String
  slug : String
deriving DecidableEq, Repr

/-- The `Action` constructor: stores the text and `slugify(action)`. -/
def Action.make (raw : String) : Action :=
  { action := raw, slug := slugify raw }

/-- The `Source` value object (`source.ts`). -/
structure Source where
  type_ : SourceType
  context : String
  createdAt : Int
  hash : String
deriving DecidableEq, Repr

/-- `Source.generateHash`: the 32-bit hash of `"{type}:{context}"`,
absolute value rendered in base 36. -/
def sourceHash (t : SourceType) (ctx : String) : String :=
  natToBaseStr 36 (jsStringHash (t.str ++ ":" ++ ctx)).natAbs

/-- The `Source` constructor: the type is validated against the
enumeration (intrinsic here), the context must be non-blank and at most
1000 characters; the stored context is trimmed and the creation time is
the current clock (`now`, a parameter of the model). -/
def Source.make (t : SourceType) (context : String) (now : Int) :
    Except String Source :=
  if (trimChars context.data).length = 0 then
    .error "Source context cannot be empty"
  else if context.data.length > 1000 then
    .error "Source context exceeds maximum length"
  else
    .ok { type_ := t, context := String.mk (trimChars context.data),
          createdAt := now, hash := sourceHash t (String.mk (trimChars context.data)) }

/-- The `Memory` aggregate (`memory.ts`).  `expertId` is `Option`-valued
because the repository's bypassed-constructor reconstruction leaves the
field unassigned (`undefined`). -/
structure Memory where
  content : String
  status : MemoryStatus
  createdAt : Int
  contentHash : String
  expertId : Option String
  tags : List Tag
  entities : List Entity
  actions : List Action
  embedding : Option Embedding
  source : Option Source
deriving DecidableEq, Repr

/-- `Memory.validateContent`: non-blank, at most 7500 characters. -/
def validateContent (content : String) : Option String :=
  if (trimChars content.data).length = 0 then some "Content cannot be empty"
  else if content.data.length > 7500 then some "Content exceeds maximum length"
  else none

/-- The `Memory` constructor: validates the content, recomputes the
content hash from the content, and takes defensive copies of the child
collections.  An `undefined` `expertId` argument takes the parameter
default `"general"`. -/
def Memory.make (content : String) (status : MemoryStatus) (createdAt : Int)
    (tags : List Tag) (entities : List Entity) (actions : List Action)
    (embedding : Option Embedding) (source : Option Source)
    (expertId : String) : Except String Memory :=
  match validateContent content with
  | some e => .error e
  | none =>
    .ok { content := content, status := status, createdAt := createdAt,
          contentHash := memoryContentHash content, expertId := some expertId,
          tags := tags, entities := entities, actions := actions,
          embedding := embedding, source := source }

/-- `ensureNotStored`: a stored memory rejects further mutation. -/
def Memory.ensureNotStored (m : Memory) : Except String Unit :=
  if m.status = .stored then .error "Cannot modify stored memory" else .ok ()

/-- `markAsStored`: rebuilds the aggregate via the constructor with status
STORED (no `ensureNotStored` check); an unassigned `expertId` falls back to
the constructor default. -/
def Memory.markAsStored (m : Memory) : Except String Memory :=
  Memory.make m.content .stored m.createdAt m.tags m.entities m.actions
    m.embedding m.source (m.expertId.getD "general")

/-- `addTag`: guard against STORED, then rebuild with the tag appended. -/
def Memory.addTag (m : Memory) (t : Tag) : Except String Memory := do
  let _ ← m.ensureNotStored
  Memory.make m.content m.status m.createdAt (m.tags ++ [t]) m.entities
    m.actions m.embedding m.source (m.expertId.getD "general")

/-- `addEntity`. -/
def Memory.addEntity (m : Memory) (e : Entity) : Except String Memory := do
  let _ ← m.ensureNotStored
  Memory.make m.content m.status m.createdAt m.tags (m.entities ++ [e])
    m.actions m.embedding m.source (m.expertId.getD "general")

/-- `addAction`. -/
def Memory.addAction (m : Memory) (a : Action) : Except String Memory := do
  let _ ← m.ensureNotStored
  Memory.make m.content m.status m.createdAt m.tags m.entities
    (m.actions ++ [a]) m.embedding m.source (m.expertId.getD "general")

/-- `setEmbedding`. -/
def Memory.setEmbedding (m : Memory) (e : Embedding) : Except String Memory := do
  let _ ← m.ensureNotStored
  Memory.make m.content m.status m.createdAt m.tags m.entities m.actions
    (some e) m.source (m.expertId.getD "general")

/-- `setSource`. -/
def Memory.setSource (m : Memory) (s : Source) : Except String Memory := do
  let _ ← m.ensureNotStored
  Memory.make m.content m.status m.createdAt m.tags m.entities m.actions
    m.embedding (some s) (m.expertId.getD "general")

/-! ## The repository's database
(`src/infrastructure/migrations/001_initial_schema.sql` and
`004_enable_rls_enforcement.sql`)

Tables are lists of row records in insertion order.  Row-level security is
embedded as the visible-row computation: every query sees only the
`memories` rows whose `tenant_id` equals the bound tenant, and child rows
only through a visible root (`memory_id IN (SELECT id FROM memories
WHERE tenant_id = current_setting(...))`). -/

/-- A `memories` row. -/
structure MemoryRow where
  id : String
  tenant_id : String
  content : String
  content_hash : String
  status : MemoryStatus
  created_at : Int
deriving DecidableEq, Repr

/-- An `embeddings` row (unique per `memory_id`). -/
structure EmbeddingRow where
  memory_id : String
  vector : List JSNum
  dimensions : Nat
  model : String
deriving DecidableEq, Repr

/-- A `sources` row (unique per `memory_id`). -/
structure SourceRow where
  memory_id : String
  type_ : SourceType
  context : String
  hash : String
  created_at : Int
deriving DecidableEq, Repr

/-- A `tags` row (unique per `(memory_id, slug)`). -/
structure TagRow where
  memory_id : String
  raw : String
  normalized : String
  slug : String
deriving DecidableEq, Repr

/-- An `entities` row (unique per `(memory_id, text, type)`). -/
structure EntityRow where
  memory_id : String
  text : String
  type_ : String
deriving DecidableEq, Repr

/-- An `actions` row (unique per `(memory_id, slug)`). -/
structure ActionRow where
  memory_id : String
  action : String
  slug : String
deriving DecidableEq, Repr

/-- The database visible to the repository. -/
structure DB where
  memories : List MemoryRow
  embeddings : List EmbeddingRow
  sources : List SourceRow
  tags : List TagRow
  entities : List EntityRow
  actions : List ActionRow
deriving DecidableEq, Repr

/-- An empty database. -/
def emptyDB : DB :=
  { memories := [], embeddings := [], sources := [], tags := [],
    entities := [], actions := [] }

/-- The `memories` rows a query sees under the `memories_tenant_rls`
policy: `tenant_id = current_setting('pond.current_tenant_id')::uuid`. -/
def visibleMemories (db : DB) (tenant : String) : List MemoryRow :=
  db.memories.filter (fun r => r.tenant_id == tenant)

/-- The bypassed-constructor base value of the reconstruction: the flat
row's scalar columns with status DRAFT, empty children and an unassigned
`expertId`. -/
def baseMemory (row : MemoryRow) : Memory :=
  { content := row.content, contentHash := row.content_hash,
    status := .draft, createdAt := row.created_at,
    tags := [], entities := [], actions := [],
    embedding := none, source := none, expertId := none }

/-- The embedding restoration step of `findById`: guarded by JavaScript
truthiness of the joined columns (`dimensions` non-zero, `model`
non-empty; a returned vector array is always truthy), it revalidates the
vector through the `Embedding` constructor and attaches it. -/
def embStep (m0 : Memory) : Option EmbeddingRow → Except String Memory
  | some er =>
    if er.dimensions ≠ 0 ∧ er.model ≠ "" then do
      let e ← Embedding.make er.vector er.model
      Memory.setEmbedding m0 e
    else pure m0
  | none => pure m0

/-- The source restoration step of `findById`: guarded by truthiness of
the joined `context` and `hash` columns (type and timestamp are always
truthy); the source value is assembled field-by-field with the persisted
timestamp, bypassing the `Source` constructor. -/
def srcStep (m1 : Memory) : Option SourceRow → Except String Memory
  | some sr =>
    if sr.context ≠ "" ∧ sr.hash ≠ "" then
      Memory.setSource m1
        { type_ := sr.type_, context := sr.context,
          createdAt := sr.created_at, hash := sr.hash }
    else pure m1
  | none => pure m1

/-- `findById`'s aggregate reconstruction from the joined row, following
the source: the bypassed-constructor base value, then the embedding and
source restoration steps, `addTag` / `addEntity` / `addAction` per child
row, finally `markAsStored` when the persisted status column says
STORED. -/
def reconstruct (row : MemoryRow) (embr : Option EmbeddingRow)
    (srcr : Option SourceRow) (tagRows : List TagRow)
    (entityRows : List EntityRow) (actionRows : List ActionRow) :
    Except String Memory := do
  let m1 ← embStep (baseMemory row) embr
  let m2 ← srcStep m1 srcr
  let m3 ← tagRows.foldlM (fun mem tr => mem.addTag (Tag.make tr.raw)) m2
  let m4 ← entityRows.foldlM (fun mem er =>
    mem.addEntity (Entity.mk er.text er.type_)) m3
  let m5 ← actionRows.foldlM (fun mem ar =>
    mem.addAction (Action.make ar.action)) m4
  if row.status = .stored then m5.markAsStored else pure m5

/-- `PostgresMemoryRepository.findById`: bind the tenant context, run the
single aggregated query — the root row filtered by id under RLS, left
joins to embedding and source, children aggregated in table order — and
reconstruct; `null` (here `none`) when no row matches. -/
def findById (db : DB) (id : String) (tenant : String) :
    Except String (Option Memory) :=
  match (visibleMemories db tenant).filter (fun r => r.id == id) with
  | [] => .ok none
  | row :: _ => do
    let m ← reconstruct row
      ((db.embeddings.filter (fun e => e.memory_id == row.id)).head?)
      ((db.sources.filter (fun s => s.memory_id == row.id)).head?)
      (db.tags.filter (fun t => t.memory_id == row.id))
      (db.entities.filter (fun e => e.memory_id == row.id))
      (db.actions.filter (fun a => a.memory_id == row.id))
    return some m

/-- `findByContentHash`: resolve the hash to an id under RLS, then
delegate to `findById`. -/
def findByContentHash (db : DB) (hash : String) (tenant : String) :
    Except String (Option Memory) :=
  match (visibleMemories db tenant).filter (fun r => r.content_hash == hash) with
  | [] => .ok none
  | row :: _ => findById db row.id tenant

/-- The three pgvector metrics of `findSimilar`. -/
inductive SimilarityMetric where
  | cosine
  | euclidean
  | dotProduct
deriving DecidableEq, Repr

/-- The `WHERE` threshold of each metric's query: cosine keeps
`distance ≤ 1 − threshold`, euclidean keeps `distance ≤ threshold`,
inner-product keeps `distance ≤ −threshold` (pgvector returns the negated
inner product). -/
def metricDistanceBound (metric : SimilarityMetric) (threshold : ℚ) : ℚ :=
  match metric with
  | .cosine => 1 - threshold
  | .euclidean => threshold
  | .dotProduct => -threshold

/-- The similarity each metric's query computes from the distance:
cosine `1 − d`, euclidean `1 / (1 + d)`, inner product `−d`. -/
def metricSimilarity (metric : SimilarityMetric) (d : ℚ) : ℚ :=
  match metric with
  | .cosine => 1 - d
  | .euclidean => 1 / (1 + d)
  | .dotProduct => -d

/-- A `findSimilar` result: the rehydrated memory with the store's
distance and the metric's similarity. -/
structure SimilarResult where
  memory : Memory
  distance : ℚ
  similarity : ℚ
deriving DecidableEq, Repr

/-- Ascending distance order on scored candidates
(`ORDER BY e.vector <op> $query ASC`). -/
def distLE (a b : String × ℚ) : Prop := a.2 ≤ b.2

instance : DecidableRel distLE := fun a b =>
  inferInstanceAs (Decidable (a.2 ≤ b.2))

instance : IsTotal (String × ℚ) distLE := ⟨fun a b => le_total a.2 b.2⟩

instance : IsTrans (String × ℚ) distLE := ⟨fun _ _ _ => le_trans⟩

/-- `PostgresMemoryRepository.findSimilar`: join visible memories to their
embeddings, keep rows of the query's dimensionality whose distance meets
the metric's threshold, order by distance ascending, cap at `limit`, then
rehydrate each id through `findById` (dropping ids that rehydrate to
nothing) while preserving the scan order.  The pgvector distance operator
itself (`<=>`/`<->`/`<#>`) is the store's and enters the model as the
`distOp` parameter. -/
def mkSimilarResult (mem : Memory) (metric : SimilarityMetric) (d : ℚ) :
    SimilarResult :=
  { memory := mem, distance := d, similarity := metricSimilarity metric d }

def findSimilar (distOp : SimilarityMetric → List JSNum → List JSNum → ℚ)
    (db : DB) (q : Embedding) (threshold : ℚ) (tenant : String)
    (limit : Nat) (metric : SimilarityMetric) :
    Except String (List SimilarResult) :=
  (((((visibleMemories db tenant).flatMap (fun mrow =>
      (db.embeddings.filter (fun e => e.memory_id == mrow.id)).map
        (fun e => (mrow.id, e)))).filter (fun p =>
      p.2.dimensions == q.dimensions &&
      decide (distOp metric p.2.vector q.vector ≤
        metricDistanceBound metric threshold))).map (fun p =>
      (p.1, distOp metric p.2.vector q.vector))).insertionSort
        distLE).take limit |>.foldlM (fun acc p => do
    let mem? ← findById db p.1 tenant
    match mem? with
    | some mem => pure (acc ++ [mkSimilarResult mem metric p.2])
    | none => pure acc) []

/-- Descending creation-time order on memory rows
(`ORDER BY created_at DESC`). -/
def createdGE (a b : MemoryRow) : Prop := b.created_at ≤ a.created_at

instance : DecidableRel createdGE := fun a b =>
  inferInstanceAs (Decidable (b.created_at ≤ a.created_at))

instance : IsTotal MemoryRow createdGE := ⟨fun a b => le_total b.created_at a.created_at⟩

instance : IsTrans MemoryRow createdGE :=
  ⟨fun _ _ _ hab hbc => le_trans hbc hab⟩

/-- `PostgresMemoryRepository.search`: full-text match on content, ranked
by relevance descending, capped, rehydrated through `findById`.  The
store's `plainto_tsquery`/`ts_rank` enter the model as the `tsMatch` and
`tsRank` parameters. -/
def search (tsMatch : String → String → Bool) (tsRank : String → String → ℚ)
    (db : DB) (query : String) (tenant : String) (limit : Nat) :
    Except String (List Memory) := do
  let hits := (visibleMemories db tenant).filter (fun r => tsMatch r.content query)
  let ordered := (@List.insertionSort MemoryRow
    (fun a b => tsRank b.content query ≤ tsRank a.content query)
    (fun a b => inferInstanceAs
      (Decidable (tsRank b.content query ≤ tsRank a.content query))) hits).take limit
  ordered.foldlM (fun acc r => do
    let mem? ← findById db r.id tenant
    match mem? with
    | some mem => pure (acc ++ [mem])
    | none => pure acc) []

/-- `PostgresMemoryRepository.findAll`: paginated listing ordered by
creation time descending, rehydrated through `findById`. -/
def findAll (db : DB) (tenant : String) (limit : Nat) (offset : Nat) :
    Except String (List Memory) := do
  let ordered := (((visibleMemories db tenant).insertionSort createdGE).drop
    offset).take limit
  ordered.foldlM (fun acc r => do
    let mem? ← findById db r.id tenant
    match mem? with
    | some mem => pure (acc ++ [mem])
    | none => pure acc) []

/-- `PostgresMemoryRepository.delete`: `DELETE FROM memories WHERE id = $1`
under RLS (so only the bound tenant's row can match), cascading to child
rows; returns whether a row was removed. -/
def deleteMemory (db : DB) (id : String) (tenant : String) : DB × Bool :=
  let hit := db.memories.any (fun r => r.id == id && r.tenant_id == tenant)
  let deletedIds := (db.memories.filter (fun r =>
    r.id == id && r.tenant_id == tenant)).map MemoryRow.id
  ({ memories := db.memories.filter (fun r =>
       !(r.id == id && r.tenant_id == tenant)),
     embeddings := db.embeddings.filter (fun e => !(deletedIds.contains e.memory_id)),
     sources := db.sources.filter (fun s => !(deletedIds.contains s.memory_id)),
     tags := db.tags.filter (fun t => !(deletedIds.contains t.memory_id)),
     entities := db.entities.filter (fun e => !(deletedIds.contains e.memory_id)),
     actions := db.actions.filter (fun a => !(deletedIds.contains a.memory_id)) },
   hit)

/-- Remove one root row from the database — the observational baseline for
"the id not existing at all" (children of that row, being reachable only
through a visible root, are irrelevant to any other tenant's queries and
stay in place). -/
def eraseMemoryRow (db : DB) (r : MemoryRow) : DB :=
  { db with memories := db.memories.filter (fun x => !(x == r)) }

theorem visible_erase (db : DB) (r : MemoryRow) (t2 : String)
    (ht : r.tenant_id ≠ t2) :
    visibleMemories (eraseMemoryRow db r) t2 = visibleMemories db t2 := by
  unfold visibleMemories eraseMemoryRow
  rw [List.filter_filter]
  apply List.filter_congr
  intro x _
  by_cases hx : x = r
  · subst hx
    simp [ht]
  · simp [hx]

/-- C3: a memory row saved under tenant T1 is invisible to every operation
issued under a different tenant T2: each of `findById`,
`findByContentHash`, `findSimilar`, `search` and `findAll` returns exactly
what it would return on a database in which that row never existed, and
`delete` under T2 of that row's id returns `false` and leaves the row in
place — cross-tenant access is indistinguishable from the id not existing
at all.  (`huniq` is the `memories` primary-key invariant: no other row
shares the id.) -/
theorem tenant_isolation (db : DB) (r : MemoryRow) (t2 : String)
    (hr : r ∈ db.memories) (ht : r.tenant_id ≠ t2)
    (huniq : ∀ r' ∈ db.memories, r'.id = r.id → r' = r) :
    (∀ id, findById (eraseMemoryRow db r) id t2 = findById db id t2) ∧
    (∀ h, findByContentHash (eraseMemoryRow db r) h t2 =
      findByContentHash db h t2) ∧
    (∀ dop q th lim met, findSimilar dop (eraseMemoryRow db r) q th t2 lim met =
      findSimilar dop db q th t2 lim met) ∧
    (∀ tsM tsR qry lim, search tsM tsR (eraseMemoryRow db r) qry t2 lim =
      search tsM tsR db qry t2 lim) ∧
    (∀ lim off, findAll (eraseMemoryRow db r) t2 lim off = findAll db t2 lim off) ∧
    (deleteMemory db r.id t2).2 = false ∧
    r ∈ (deleteMemory db r.id t2).1.memories := by
  have hvis := visible_erase db r t2 ht
  have hfind : ∀ id, findById (eraseMemoryRow db r) id t2 = findById db id t2 := by
    intro id
    unfold findById
    rw [hvis]
    rfl
  refine ⟨hfind, ?_, ?_, ?_, ?_, ?_, ?_⟩
  · intro h
    unfold findByContentHash
    rw [hvis]
    simp only [hfind]
  · intro dop q th lim met
    unfold findSimilar
    rw [hvis]
    simp only [hfind]
    rfl
  · intro tsM tsR qry lim
    unfold search
    rw [hvis]
    simp only [hfind]
  · intro lim off
    unfold findAll
    rw [hvis]
    simp only [hfind]
  · unfold deleteMemory
    simp only []
    rw [← Bool.not_eq_true, List.any_eq_true]
    rintro ⟨row, hrow, hp⟩
    simp only [Bool.and_eq_true, beq_iff_eq] at hp
    have : row = r := huniq row hrow hp.1
    subst this
    exact ht hp.2
  · unfold deleteMemory
    simp only []
    apply List.mem_filter.mpr
    refine ⟨hr, ?_⟩
    simp [ht]

/-- A concrete tenant-1 root row. -/
def t1Row : MemoryRow :=
  { id := "m1", tenant_id := "t1", content := "hello",
    content_hash := memoryContentHash "hello", status := .draft,
    created_at := 0 }

/-- A database holding only tenant 1's row. -/
def t1DB : DB := { emptyDB with memories := [t1Row] }

/-- Witness for C3 at a concrete input: with only tenant 1's row in the
database, tenant 2's `findById` of that id behaves exactly as on a
database without the row, and tenant 2's `delete` of it returns `false`
and removes nothing. -/
theorem tenant_isolation_witness :
    findById (eraseMemoryRow t1DB t1Row) "m1" "t2" = findById t1DB "m1" "t2" ∧
    (deleteMemory t1DB "m1" "t2").2 = false ∧
    t1Row ∈ (deleteMemory t1DB "m1" "t2").1.memories := by
  have h := tenant_isolation t1DB t1Row "t2" (by simp [t1DB, emptyDB])
    (by decide) (by decide)
  exact ⟨h.1 "m1", h.2.2.2.2.2.1, h.2.2.2.2.2.2⟩

theorem similar_fold (db : DB) (tenant : String) (metric : SimilarityMetric)
    (pairs : List (String × ℚ)) (acc res : List SimilarResult)
    (h : pairs.foldlM (fun acc p => do
        let mem? ← findById db p.1 tenant
        match mem? with
        | some mem => pure (acc ++ [mkSimilarResult mem metric p.2])
        | none => pure acc) acc = .ok res) :
    ∃ tailRes, res = acc ++ tailRes ∧
      (∀ sr ∈ tailRes, ∃ p ∈ pairs, sr.distance = p.2 ∧
        sr.similarity = metricSimilarity metric p.2) ∧
      (tailRes.map SimilarResult.distance).Sublist (pairs.map Prod.snd) := by
  induction pairs generalizing acc res with
  | nil =>
    simp only [List.foldlM_nil] at h
    cases h
    exact ⟨[], by simp, by simp, by simp⟩
  | cons p rest ih =>
    simp only [List.foldlM_cons] at h
    cases hb : findById db p.1 tenant with
    | error e =>
      rw [hb] at h
      simp only [Bind.bind, Except.bind] at h
      cases h
    | ok mem? =>
      rw [hb] at h
      cases mem? with
      | some mem =>
        simp only [Bind.bind, Except.bind] at h
        obtain ⟨tailRes, hres, hprops, hsub⟩ := ih _ _ h
        refine ⟨mkSimilarResult mem metric p.2 :: tailRes, ?_, ?_, ?_⟩
        · rw [hres]
          simp [List.append_assoc]
        · intro sr hsr
          rcases List.mem_cons.mp hsr with rfl | hsr2
          · exact ⟨p, List.mem_cons_self _ _, rfl, rfl⟩
          · obtain ⟨pq, hpq, hd, hs⟩ := hprops sr hsr2
            exact ⟨pq, List.mem_cons_of_mem _ hpq, hd, hs⟩
        · simpa [mkSimilarResult] using List.Sublist.cons₂ p.2 hsub
      | none =>
        simp only [Bind.bind, Except.bind] at h
        obtain ⟨tailRes, hres, hprops, hsub⟩ := ih _ _ h
        refine ⟨tailRes, hres, ?_, ?_⟩
        · intro sr hsr
          obtain ⟨pq, hpq, hd, hs⟩ := hprops sr hsr
          exact ⟨pq, List.mem_cons_of_mem _ hpq, hd, hs⟩
        · exact hsub.trans (List.sublist_cons_self _ _)

theorem take_sorted_snd (lim : Nat) (l : List (String × ℚ)) :
    List.Pairwise (· ≤ ·) (((l.insertionSort distLE).take lim).map Prod.snd) := by
  rw [List.pairwise_map]
  exact List.Pairwise.sublist (List.take_sublist _ _)
    (List.sorted_insertionSort distLE l)

/-- C5: whenever `findSimilar` returns, it returns at most `limit`
results; every result's similarity is computed from its distance by the
metric's formula, its distance meets the metric's threshold condition, and
it is backed by a visible root row joined to a stored embedding of exactly
the query's dimensionality whose store-computed distance it carries; the
results are in non-decreasing distance order.  The per-metric threshold
and similarity formulas are exactly: cosine — keep `d ≤ 1 − t`,
similarity `1 − d`; euclidean — keep `d ≤ t`, similarity `1 / (1 + d)`;
dot-product — keep `d ≤ −t`, similarity `−d`. -/
theorem findSimilar_semantics (dop : SimilarityMetric → List JSNum → List JSNum → ℚ)
    (db : DB) (q : Embedding) (th : ℚ) (tenant : String) (lim : Nat)
    (metric : SimilarityMetric) (res : List SimilarResult)
    (h : findSimilar dop db q th tenant lim metric = .ok res) :
    res.length ≤ lim ∧
    (∀ sr ∈ res,
      sr.similarity = metricSimilarity metric sr.distance ∧
      sr.distance ≤ metricDistanceBound metric th ∧
      ∃ mrow ∈ visibleMemories db tenant, ∃ erow ∈ db.embeddings,
        erow.memory_id = mrow.id ∧ erow.dimensions = q.dimensions ∧
        sr.distance = dop metric erow.vector q.vector) ∧
    List.Pairwise (· ≤ ·) (res.map SimilarResult.distance) ∧
    metricDistanceBound SimilarityMetric.cosine th = 1 - th ∧
    metricDistanceBound SimilarityMetric.euclidean th = th ∧
    metricDistanceBound SimilarityMetric.dotProduct th = -th ∧
    (∀ d, metricSimilarity SimilarityMetric.cosine d = 1 - d) ∧
    (∀ d, metricSimilarity SimilarityMetric.euclidean d = 1 / (1 + d)) ∧
    (∀ d, metricSimilarity SimilarityMetric.dotProduct d = -d) := by
  unfold findSimilar at h
  obtain ⟨tailRes, hres, hprops, hsub⟩ := similar_fold db tenant metric _ _ _ h
  have hres2 : res = tailRes := by simpa using hres
  subst hres2
  refine ⟨?_, ?_, ?_, rfl, rfl, rfl, fun d => rfl, fun d => rfl, fun d => rfl⟩
  · have hlen := hsub.length_le
    rw [List.length_map, List.length_map] at hlen
    exact le_trans hlen (le_trans (List.length_take_le _ _) (le_refl _))
  · intro sr hsr
    obtain ⟨p, hp, hd, hs⟩ := hprops sr hsr
    have hp1 := (List.perm_insertionSort distLE _).mem_iff.mp
      (List.mem_of_mem_take hp)
    obtain ⟨pk, hpk, hmap⟩ := List.mem_map.mp hp1
    obtain ⟨hjoin, hcond⟩ := List.mem_filter.mp hpk
    obtain ⟨mrow, hmrow, hpair⟩ := List.mem_flatMap.mp hjoin
    obtain ⟨erow, herow, hpe⟩ := List.mem_map.mp hpair
    cases hpe
    obtain ⟨herow2, hmid⟩ := List.mem_filter.mp herow
    simp only [Bool.and_eq_true, beq_iff_eq, decide_eq_true_eq] at hcond
    refine ⟨by rw [hd, hs], ?_, mrow, hmrow, erow, herow2, ?_, hcond.1, ?_⟩
    · rw [hd, ← hmap]
      exact hcond.2
    · simpa using hmid
    · rw [hd, ← hmap]
  · exact List.Pairwise.sublist hsub (take_sorted_snd lim _)

/-- The zero distance operator, standing in for the store's operator in
the witness. -/
def dopZero : SimilarityMetric → List JSNum → List JSNum → ℚ := fun _ _ _ => 0

/-- A query embedding for the witness. -/
def qEmb : Embedding :=
  { vector := List.replicate 128 (JSNum.fin 1), dimensions := 128, model := "m" }

set_option maxRecDepth 8192 in
/-- Witness for C5 at a concrete input: on a database with no embedding
rows, `findSimilar` returns an empty result satisfying all the stated
bounds and formulas. -/
theorem findSimilar_semantics_witness :
    ([] : List SimilarResult).length ≤ 10 ∧
    List.Pairwise (· ≤ ·) (([] : List SimilarResult).map SimilarResult.distance) ∧
    metricDistanceBound SimilarityMetric.cosine 0 = 1 - 0 ∧
    metricDistanceBound SimilarityMetric.euclidean 0 = 0 ∧
    metricDistanceBound SimilarityMetric.dotProduct 0 = -0 := by
  have h := findSimilar_semantics dopZero t1DB qEmb 0 "t1" 10
    SimilarityMetric.cosine [] rfl
  exact ⟨h.1, h.2.2.1, h.2.2.2.1, h.2.2.2.2.1, h.2.2.2.2.2.1⟩

/-! ### Round-trip helper lemmas for `performSave` / `findById` (C6) -/

end DenoPond
